import Mathlib

/-!
# Verification of the biomarker extraction engine (`PyScript/Extractdata.py`)

A shallow embedding of the extraction code: the value parser
(`extract_value`), the patient-info parser (`extract_patient_info`), the
reference-range table, the line-scanning biomarker extractor inside
`process_pdf_to_json`, and the report assembly step.  Python regular
expressions are modelled by a small backtracking engine over a fixed
abstract syntax (`RX`), enumerating alternatives in the same priority
order as the `re` module (leftmost search position, greedy quantifiers,
optional groups tried present-first).  Python `float` is modelled exactly
over `ℚ` (`PyFloat` additionally carries the infinity/NaN results), and
Python exceptions are modelled with `Except` where a claim is about fault
propagation.
-/

/-- ASCII decimal digit, the model of `\d` and of the digits accepted by
`float`. -/
def pyIsDigit (c : Char) : Bool :=
  c = '0' || c = '1' || c = '2' || c = '3' || c = '4' ||
  c = '5' || c = '6' || c = '7' || c = '8' || c = '9'

/-- The whitespace characters of Python's `str.split()` / `str.strip()` /
regex `\s` (ASCII part). -/
def isPySpace (c : Char) : Bool :=
  c = ' ' || c = '\t' || c = '\n' || c = '\x0b' || c = '\x0c' || c = '\r'

/-- The literal dot character class (regex `\.`). -/
def dotP (c : Char) : Bool := c = '.'

/-- Result of Python `float(...)`: a finite rational (decimal strings are
exact), an infinity, or NaN. -/
inductive PyFloat where
  | finite : ℚ → PyFloat
  | inf : Bool → PyFloat
  | nan : PyFloat
deriving DecidableEq

/-- Python `str.strip()` restricted to whitespace. -/
def pyStrip (l : List Char) : List Char :=
  ((l.dropWhile isPySpace).reverse.dropWhile isPySpace).reverse

/-- Parse an optional leading sign; returns (isNegative, rest). -/
def parseSign (l : List Char) : Bool × List Char :=
  match l with
  | c :: r => if c = '-' then (true, r) else if c = '+' then (false, r) else (false, l)
  | [] => (false, [])

/-- After the first digit of a Python `digitpart`, consume `(["_"] digit)*`:
underscores are only allowed between digits.  Returns the digits read
(underscores dropped) and the unconsumed rest. -/
def digitsUnd : List Char → (List Char × List Char)
  | [] => ([], [])
  | c :: rest =>
    if c = '_' then
      match rest with
      | d :: rest' =>
        if pyIsDigit d then
          let p := digitsUnd rest'
          (d :: p.1, p.2)
        else ([], c :: rest)
      | [] => ([], [c])
    else if pyIsDigit c then
      let p := digitsUnd rest
      (c :: p.1, p.2)
    else ([], c :: rest)

/-- Python `digitpart`: `digit (["_"] digit)*`. -/
def parseDigitPart (l : List Char) : Option (List Char × List Char) :=
  match l with
  | c :: rest =>
    if pyIsDigit c then
      some (let p := digitsUnd rest; (c :: p.1, p.2))
    else none
  | [] => none

/-- Digit-string to natural number. -/
def natOfDigits (l : List Char) : ℕ :=
  l.foldl (fun a c => 10 * a + (c.toNat - 48)) 0

/-- The exact rational `m * 10^e` (kept in `mkRat` form so that concrete
values reduce in the kernel). -/
def decPow (m e : ℤ) : ℚ :=
  if 0 ≤ e then mkRat (m * (10 : ℤ) ^ e.toNat) 1
  else mkRat m ((10 : ℕ) ^ (-e).toNat)

/-- The exact rational value of integer digits `d1`, fraction digits `d2`
and decimal exponent `exp`. -/
def decValue (d1 d2 : List Char) (exp : ℤ) : ℚ :=
  decPow (natOfDigits (d1 ++ d2)) (exp - (d2.length : ℤ))

/-- Parse the optional exponent `("e"|"E") [sign] digitpart`; `none` means
the whole float string is malformed (an `e` not followed by digits). -/
def parseExp (l : List Char) : Option (ℤ × List Char) :=
  match l with
  | c :: rest =>
    if c = 'e' ∨ c = 'E' then
      let s := parseSign rest
      match parseDigitPart s.2 with
      | some (ds, r3) =>
        some ((if s.1 then -(natOfDigits ds : ℤ) else (natOfDigits ds : ℤ)), r3)
      | none => none
    else some (0, l)
  | [] => some (0, [])

/-- Parse the numeric body of a Python float literal (after the sign):
`digitpart ["." [digitpart]] [exponent]` or `"." digitpart [exponent]`. -/
def parseNumBody (l : List Char) : Option (ℚ × List Char) :=
  match parseDigitPart l with
  | some (d1, r1) =>
    match r1 with
    | '.' :: r2 =>
      (match parseDigitPart r2 with
       | some (d2, r3) => (parseExp r3).map (fun p => (decValue d1 d2 p.1, p.2))
       | none => (parseExp r2).map (fun p => (decValue d1 [] p.1, p.2)))
    | _ => (parseExp r1).map (fun p => (decValue d1 [] p.1, p.2))
  | none =>
    match l with
    | '.' :: r2 =>
      (match parseDigitPart r2 with
       | some (d2, r3) => (parseExp r3).map (fun p => (decValue [] d2 p.1, p.2))
       | none => none)
    | _ => none

/-- Python `float(s)` on a string: `none` models a raised `ValueError`. -/
def pyFloatOfChars (l : List Char) : Option PyFloat :=
  let s := pyStrip l
  let sg := parseSign s
  let low := sg.2.map Char.toLower
  if low = "inf".data ∨ low = "infinity".data then some (.inf sg.1)
  else if low = "nan".data then some .nan
  else
    match parseNumBody sg.2 with
    | some (q, []) => some (.finite (if sg.1 then -q else q))
    | _ => none

/-- Python substring test `pat in hay` (on character lists). -/
def isSub (pat : List Char) : List Char → Bool
  | [] => pat.isPrefixOf []
  | c :: t => pat.isPrefixOf (c :: t) || isSub pat t

/-- Python `str.lower()` (ASCII). -/
def pyLower (l : List Char) : List Char := l.map Char.toLower

/-- Accumulator-based worker for whitespace splitting. -/
def pySplitAux : List Char → List Char → List (List Char)
  | [], acc => if acc.isEmpty then [] else [acc.reverse]
  | c :: rest, acc =>
    if isPySpace c then
      if acc.isEmpty then pySplitAux rest [] else acc.reverse :: pySplitAux rest []
    else pySplitAux rest (c :: acc)

/-- Python `str.split()` with no argument: split on whitespace runs,
dropping empty tokens. -/
def pySplitWS (l : List Char) : List (List Char) := pySplitAux l []

/-- Accumulator-based worker for newline splitting. -/
def splitNLAux : List Char → List Char → List (List Char)
  | [], acc => [acc.reverse]
  | c :: rest, acc =>
    if c = '\n' then acc.reverse :: splitNLAux rest []
    else splitNLAux rest (c :: acc)

/-- Python `text.split('\n')`: split at every newline, keeping empty
pieces. -/
def splitNL (l : List Char) : List (List Char) := splitNLAux l []

/-- The document text as its list of lines (`full_text.split('\n')`). -/
def splitLines (text : String) : List String :=
  (splitNL text.data).map (fun l => ⟨l⟩)

/-- The cleaning step of `extract_value`:
`line.replace(',', '').replace('<', '').replace('>', '')`. -/
def pyClean (l : List Char) : List Char :=
  ((l.filter (fun c => !(c = ','))).filter (fun c => !(c = '<'))).filter
    (fun c => !(c = '>'))

/-! ## The regex engine -/

/-- Abstract syntax of the regular expressions used by the source: single
characters from a class, greedy `*` and `+` over a class, an optional
(greedy `?`) non-capturing sequence, a capture group, and the `$` anchor. -/
inductive RX where
  | one : (Char → Bool) → RX
  | star : (Char → Bool) → RX
  | plus : (Char → Bool) → RX
  | opt : List RX → RX
  | grp : ℕ → List RX → RX
  | eol : RX

/-- Captured groups: group index paired with captured characters. -/
abbrev Caps := List (ℕ × List Char)

/-- Alternatives (consumed lengths) of a greedy `class*` at the head of
`cs`, longest first — the backtracking order of the `re` module. -/
def starAlts (p : Char → Bool) (cs : List Char) : List ℕ :=
  (List.range ((cs.takeWhile p).length + 1)).reverse

/-- Alternatives of a greedy `class+`, longest first (at least one char). -/
def plusAlts (p : Char → Bool) (cs : List Char) : List ℕ :=
  ((List.range ((cs.takeWhile p).length)).reverse).map (· + 1)

/-- All ways a regex sequence can match a prefix of `cs`, as
(consumed length, captures), in the `re` module's backtracking priority
order (head = the match `re` reports).  `fuel` bounds the recursion into
the regex structure; every use supplies far more fuel than the fixed
patterns of the source can consume. -/
def matchSeqF : ℕ → List RX → List Char → List (ℕ × Caps)
  | 0, _, _ => []
  | _ + 1, [], _ => [(0, ([] : List (ℕ × List Char)))]
  | f + 1, r :: rs, cs =>
    let heads : List (ℕ × Caps) :=
      match r with
      | .one p =>
        match cs with
        | [] => []
        | c :: _ => if p c then [(1, ([] : List (ℕ × List Char)))] else []
      | .star p => (starAlts p cs).map (fun k => (k, ([] : List (ℕ × List Char))))
      | .plus p => (plusAlts p cs).map (fun k => (k, ([] : List (ℕ × List Char))))
      | .opt inner => matchSeqF f inner cs ++ [(0, ([] : List (ℕ × List Char)))]
      | .grp i inner =>
        (matchSeqF f inner cs).map (fun x => (x.1, x.2 ++ [(i, cs.take x.1)]))
      | .eol => if cs.isEmpty || cs == ['\n'] then [(0, ([] : List (ℕ × List Char)))] else []
    heads.flatMap (fun x => (matchSeqF f rs (cs.drop x.1)).map (fun y => (x.1 + y.1, x.2 ++ y.2)))

/-- `re.search`: try each start position left to right, return the
first position's highest-priority match. -/
def reSearchAux (pat : List RX) : List Char → Option Caps
  | [] => ((matchSeqF 1000 pat []).head?).map Prod.snd
  | c :: rest =>
    match (matchSeqF 1000 pat (c :: rest)).head? with
    | some x => some x.2
    | none => reSearchAux pat rest

/-- `re.search(pattern, s)`, returning the captures on success. -/
def reSearch (pat : List RX) (cs : List Char) : Option Caps := reSearchAux pat cs

/-- A case-sensitive literal character. -/
def chL (c : Char) : RX := .one (fun x => x = c)

/-- A case-insensitive literal letter (given in lowercase);
models `re.IGNORECASE`. -/
def chCI (c : Char) : RX := .one (fun x => x.toLower = c)

/-- The group `(\d+\.?\d*)` shared by all four HbA1c patterns. -/
def numRX : List RX := [.plus pyIsDigit, .opt [.one dotP], .star pyIsDigit]

/-- The literal `H\.P\.L\.C` under `re.IGNORECASE`. -/
def hplcRX : List RX :=
  [chCI 'h', chL '.', chCI 'p', chL '.', chCI 'l', chL '.', chCI 'c']

/-- Pattern `(\d+\.?\d*)\s*%`. -/
def patA : List RX := [.grp 1 numRX, .star isPySpace, chL '%']

/-- Pattern `H\.P\.L\.C\s*(\d+\.?\d*)` (IGNORECASE). -/
def patB : List RX := hplcRX ++ [.star isPySpace, .grp 1 numRX]

/-- Pattern `(\d+\.?\d*)\s*H\.P\.L\.C` (IGNORECASE). -/
def patC : List RX := [.grp 1 numRX, .star isPySpace] ++ hplcRX

/-- Pattern `(\d+\.?\d*)\s*$`. -/
def patD : List RX := [.grp 1 numRX, .star isPySpace, .eol]

/-- The ordered HbA1c pattern list of `extract_value`. -/
def hbPatterns : List (List RX) := [patA, patB, patC, patD]

/-! ## `extract_value` -/

/-- The `for pattern in patterns` loop: captures of the first pattern whose
`re.search` succeeds. -/
def patLoop : List (List RX) → List Char → Option Caps
  | [], _ => none
  | p :: ps, cs =>
    match reSearch p cs with
    | some caps => some caps
    | none => patLoop ps cs

/-- `float(match.group(1))` with Python's fault behaviour collapsed to
absence: a missing group (`float(None)`, `TypeError`) or an unparsable
group (`ValueError`) both end as `None` through the outer `except`. -/
def groupFloat (caps : Caps) : Option PyFloat :=
  match caps.lookup 1 with
  | some g => pyFloatOfChars g
  | none => none

/-- The generic-policy word loop: `for word in reversed(words)` returning
the first word `float` accepts. -/
def wordScanPure : List (List Char) → Option PyFloat
  | [] => none
  | w :: ws =>
    match pyFloatOfChars w with
    | some v => some v
    | none => wordScanPure ws

/-- `extract_value(line, biomarker_name)` from the source: clean the line,
use the ordered HbA1c percentage/HPLC patterns when the biomarker name
contains "hba1c" case-insensitively (falling through to the generic token
scan when no pattern matches), otherwise scan whitespace tokens from the
right for the first one `float` accepts. -/
def extract_value (line biomarker_name : String) : Option PyFloat :=
  let clean := pyClean line.data
  if isSub "hba1c".data (pyLower biomarker_name.data) then
    match patLoop hbPatterns clean with
    | some caps => groupFloat caps
    | none => wordScanPure (pySplitWS clean).reverse
  else wordScanPure (pySplitWS clean).reverse

/-- Python exception kinds relevant to `extract_value`. -/
inductive PyErr where
  | valueError
  | typeError
deriving DecidableEq

/-- `float(...)` with its `ValueError` made explicit. -/
def pyFloatE (l : List Char) : Except PyErr PyFloat :=
  match pyFloatOfChars l with
  | some v => .ok v
  | none => .error .valueError

/-- The word loop with exceptions explicit: the inner
`try/except ValueError: continue` catches only `ValueError`. -/
def wordScanE : List (List Char) → Except PyErr (Option PyFloat)
  | [] => .ok none
  | w :: ws =>
    match pyFloatE w with
    | .ok v => .ok (some v)
    | .error .valueError => wordScanE ws
    | .error e => .error e

/-- The body of `extract_value` inside the outer `try`, with every fault
explicit: `float(match.group(1))` can raise (a `TypeError` when the group
is missing, a `ValueError` when it does not parse), and those raises are
not caught before the outer `except`. -/
def extract_value_bodyE (line biomarker_name : String) :
    Except PyErr (Option PyFloat) :=
  let clean := pyClean line.data
  if isSub "hba1c".data (pyLower biomarker_name.data) then
    match patLoop hbPatterns clean with
    | some caps =>
      match caps.lookup 1 with
      | some g => (pyFloatE g).map some
      | none => .error .typeError
    | none => wordScanE (pySplitWS clean).reverse
  else wordScanE (pySplitWS clean).reverse

/-- `extract_value` as the outer `try/except` around its body: any escaped
fault becomes `None`. -/
def extract_value_caught (line biomarker_name : String) : Option PyFloat :=
  match extract_value_bodyE line biomarker_name with
  | .ok r => r
  | .error _ => none

/-! ## `extract_patient_info` -/

/-- The regex `NAME\s*:?\s*([^(]+)(?:\((\d+)Y/([MF])\))?` of
`extract_patient_info` (case-sensitive). -/
def patientRX : List RX :=
  [chL 'N', chL 'A', chL 'M', chL 'E',
   .star isPySpace, .opt [chL ':'], .star isPySpace,
   .grp 1 [.plus (fun c => !(c = '('))],
   .opt ([chL '(', .grp 2 [.plus pyIsDigit], chL 'Y', chL '/',
          .grp 3 [.one (fun c => c = 'M' || c = 'F')], chL ')'])]

/-- Patient information; `date` is the processing date passed in
explicitly (the source stamps `datetime.now()`). -/
structure PatientInfo where
  name : String
  age : Option ℕ
  gender : Option String
  date : String
deriving DecidableEq

/-- The sentinel record returned when no line contains "NAME". -/
def unknownPatient (now : String) : PatientInfo :=
  { name := "Unknown", age := none, gender := none, date := now }

/-- Build the patient record from a successful match: title-prefixed
stripped name, age/gender from the optional groups (Python's
`if match.group(i)` truthiness: absent or empty means `None`). -/
def buildPatient (now : String) (caps : Caps) : PatientInfo :=
  { name := "Dr. " ++ ⟨pyStrip ((caps.lookup 1).getD [])⟩
    age :=
      match caps.lookup 2 with
      | some g => if g.isEmpty then none else some (natOfDigits g)
      | none => none
    gender :=
      match caps.lookup 3 with
      | some g => if g.isEmpty then none else some ⟨g⟩
      | none => none
    date := now }

/-- The line loop of `extract_patient_info`: lines containing "NAME" are
probed with the regex; a line whose regex search fails is skipped and the
scan continues. -/
def patientLoop (now : String) : List String → PatientInfo
  | [] => unknownPatient now
  | line :: rest =>
    if isSub "NAME".data line.data then
      match reSearch patientRX line.data with
      | some caps => buildPatient now caps
      | none => patientLoop now rest
    else patientLoop now rest

/-- `extract_patient_info(text)` from the source (processing date passed
explicitly). -/
def extract_patient_info (now text : String) : PatientInfo :=
  patientLoop now (splitLines text)

/-- The patient record a single line would produce, if any: the "NAME"
substring test followed by the regex search. -/
def lineInfo (now line : String) : Option PatientInfo :=
  if isSub "NAME".data line.data then
    (reSearch patientRX line.data).map (buildPatient now)
  else none

/-! ## The biomarker extractor of `process_pdf_to_json` -/

/-- One entry of the `biomarkers` dictionary: display name, alias
patterns, and the mutable found value. -/
structure Biomark where
  name : String
  patterns : List String
  value : Option PyFloat
deriving DecidableEq

/-- The `biomarkers` dictionary of `process_pdf_to_json`, in insertion
order, all values initially `None`. -/
def biomarkers0 : List Biomark :=
  [⟨"Total Cholesterol", ["TOTAL CHOLESTEROL", "CHOLESTEROL - TOTAL"], none⟩,
   ⟨"LDL", ["LDL CHOLESTEROL", "LDL-C"], none⟩,
   ⟨"HDL", ["HDL CHOLESTEROL", "HDL-C"], none⟩,
   ⟨"Triglycerides", ["TRIGLYCERIDES", "TRIG"], none⟩,
   ⟨"Creatinine", ["CREATININE", "CREATININE - SERUM"], none⟩,
   ⟨"Vitamin D", ["VITAMIN D", "25-OH VITAMIN D"], none⟩,
   ⟨"Vitamin B12", ["VITAMIN B-12", "VITAMIN B12", "B-12"], none⟩,
   ⟨"HbA1c", ["HbA1c", "HbA1c - (HPLC)", "GLYCATED HEMOGLOBIN"], none⟩]

/-- The HbA1c lookahead loop `for offset in range(1, 3)`: parse the lines
at the given offsets after `idx`, stopping at the first that yields a
value; offsets beyond the end of the document are skipped. -/
def lookaheadScan (lines : List String) (idx : ℕ) : List ℕ → Option PyFloat
  | [] => none
  | off :: offs =>
    if idx + off < lines.length then
      match extract_value (lines.getD (idx + off) "") "HbA1c" with
      | some v => some v
      | none => lookaheadScan lines idx offs
    else lookaheadScan lines idx offs

/-- The `for pattern in info["patterns"]` loop for one biomarker on one
line: on a case-insensitive alias hit, HbA1c reads the next two lines,
every other biomarker parses the matching line itself; on a failed
extraction the remaining aliases are still tried. -/
def patternLoop (lines : List String) (idx : ℕ) (line bname : String) :
    List String → Option PyFloat
  | [] => none
  | p :: ps =>
    if isSub (pyLower p.data) (pyLower line.data) then
      match
        (if bname = "HbA1c" then lookaheadScan lines idx [1, 2]
         else extract_value line bname) with
      | some v => some v
      | none => patternLoop lines idx line bname ps
    else patternLoop lines idx line bname ps

/-- Process one document line: every biomarker whose value is still
`None` runs its pattern loop on this line. -/
def stepLine (lines : List String) (idx : ℕ) (st : List Biomark) : List Biomark :=
  st.map (fun b =>
    match b.value with
    | some _ => b
    | none =>
      { b with value := patternLoop lines idx (lines.getD idx "") b.name b.patterns })

/-- The whole line scan of `process_pdf_to_json`
(`for idx, line in enumerate(lines)`). -/
def extractAll (lines : List String) : List Biomark :=
  (List.range lines.length).foldl (fun st i => stepLine lines i st) biomarkers0

/-- The value the scan would record for biomarker `b` from line `idx`
alone (`none` when no alias matches or extraction fails). -/
def attemptAt (lines : List String) (idx : ℕ) (b : Biomark) : Option PyFloat :=
  patternLoop lines idx (lines.getD idx "") b.name b.patterns

/-- The recorded value of the biomarker named `nm` in a scan state. -/
def valueOf (st : List Biomark) (nm : String) : Option PyFloat :=
  match st.find? (fun b => b.name == nm) with
  | some b => b.value
  | none => none

/-! ## Reference ranges and report assembly -/

/-- One row of the static reference-range table. -/
structure RefRange where
  unit : String
  reference_range : String
  low : ℚ
  high : ℚ
deriving DecidableEq

/-- `get_reference_ranges()` from the source, in insertion order. -/
def get_reference_ranges : List (String × RefRange) :=
  [("Vitamin D", ⟨"ng/mL", "30-100", mkRat 30 1, mkRat 100 1⟩),
   ("Vitamin B12", ⟨"pg/mL", "211-911", mkRat 211 1, mkRat 911 1⟩),
   ("Total Cholesterol", ⟨"mg/dL", "<200", mkRat 0 1, mkRat 200 1⟩),
   ("LDL", ⟨"mg/dL", "<100", mkRat 0 1, mkRat 100 1⟩),
   ("HDL", ⟨"mg/dL", ">40", mkRat 40 1, mkRat 100 1⟩),
   ("Triglycerides", ⟨"mg/dL", "<150", mkRat 0 1, mkRat 150 1⟩),
   ("Creatinine", ⟨"mg/dL", "0.7-1.3", mkRat 7 10, mkRat 13 10⟩),
   ("HbA1c", ⟨"%", "<5.7", mkRat 0 1, mkRat 57 10⟩)]

/-- One assembled biomarker entry: the extracted value joined with the
biomarker's static reference range. -/
structure BioEntry where
  value : PyFloat
  unit : String
  reference_range : String
  low : ℚ
  high : ℚ
deriving DecidableEq

/-- The `biomarkers_data` build loop: every biomarker with a found value
is joined with `reference_ranges[biomarker]`; a missing table row would
raise `KeyError` (modelled as `none`). -/
def assembleBiomarkers : List Biomark → Option (List (String × BioEntry))
  | [] => some []
  | b :: rest =>
    match b.value with
    | none => assembleBiomarkers rest
    | some v =>
      match get_reference_ranges.lookup b.name with
      | some r =>
        (assembleBiomarkers rest).map
          (fun m => (b.name, ⟨v, r.unit, r.reference_range, r.low, r.high⟩) :: m)
      | none => none

/-- The assembled `json_data` record. -/
structure Report where
  patient : PatientInfo
  biomarkers : List (String × BioEntry)
  pdf_filename : String
  processed_date : String
deriving DecidableEq

/-- The pure core of `process_pdf_to_json` on the extracted page text:
parse patient info, scan the lines for biomarkers, and assemble the
record (the two timestamps and the source filename are passed in). -/
def process_text (nowDate nowStamp fname text : String) : Option Report :=
  let lines := splitLines text
  let patient := extract_patient_info nowDate text
  let st := extractAll lines
  (assembleBiomarkers st).map
    (fun m =>
      { patient := patient, biomarkers := m, pdf_filename := fname,
        processed_date := nowStamp })

/-- The fixed eight-name biomarker vocabulary. -/
def vocab : List String :=
  ["Total Cholesterol", "LDL", "HDL", "Triglycerides", "Creatinine",
   "Vitamin D", "Vitamin B12", "HbA1c"]

/-- `\d+\.?\d*` as a predicate on the captured characters: digits, then an
optional dot followed by digits. -/
def numShapeAfter : List Char → Bool
  | [] => true
  | c :: rest => if c = '.' then rest.all pyIsDigit else pyIsDigit c && numShapeAfter rest

/-- Shape of any string the group `(\d+\.?\d*)` can capture. -/
def numShape : List Char → Bool
  | [] => false
  | c :: rest => pyIsDigit c && numShapeAfter rest

/-- Regex elements that record no capture group of their own. -/
def caplessB : RX → Bool
  | .one _ => true
  | .star _ => true
  | .plus _ => true
  | .eol => true
  | _ => false

/-! ## List helpers -/

theorem getD_eq_getElem? {α : Type _} (d : α) :
    ∀ (l : List α) (n : ℕ), l.getD n d = (l[n]?).getD d := by
  intro l
  induction l with
  | nil => intro n; simp [List.getD]
  | cons a t ih =>
    intro n
    cases n with
    | zero => simp [List.getD]
    | succ m => simp [List.getD] at ih ⊢

theorem isSome_getElem?_iff {α : Type _} :
    ∀ (l : List α) (n : ℕ), (l[n]?).isSome = true ↔ n < l.length := by
  intro l
  induction l with
  | nil => intro n; simp
  | cons a t ih =>
    intro n
    cases n with
    | zero => simp
    | succ m => simpa [Nat.succ_lt_succ_iff] using ih m

theorem findSome?_first {α β : Type _} (f : α → Option β) (d : α) :
    ∀ (l : List α) (i : ℕ) (b : β), i < l.length → f (l.getD i d) = some b →
      (∀ k, k < i → f (l.getD k d) = none) → l.findSome? f = some b := by
  intro l
  induction l with
  | nil => intro i b hi; simp at hi
  | cons a t ih =>
    intro i b hi hf hfirst
    cases i with
    | zero =>
      simp only [List.getD_cons_zero] at hf
      simp [List.findSome?_cons, hf]
    | succ n =>
      have ha : f a = none := by simpa using hfirst 0 (Nat.succ_pos n)
      simp only [List.getD_cons_succ] at hf
      rw [List.findSome?_cons, ha]
      exact ih n b (Nat.lt_of_succ_lt_succ hi) hf
        (fun k hk => by simpa using hfirst (k + 1) (Nat.succ_lt_succ hk))

theorem find?_map_keep {α β : Type _} (F : α → β) (p : β → Bool) :
    ∀ (l : List α), (l.map F).find? p = (l.find? (fun a => p (F a))).map F := by
  intro l
  induction l with
  | nil => simp
  | cons a t ih =>
    by_cases h : p (F a)
    · simp [List.find?_cons, h]
    · simp only [List.map_cons, List.find?_cons, h]
      simpa [h] using ih

theorem find?_name_of_mem_nodup :
    ∀ (l : List Biomark) (b : Biomark), (l.map Biomark.name).Nodup → b ∈ l →
      l.find? (fun x => x.name == b.name) = some b := by
  intro l
  induction l with
  | nil => intro b _ hb; simp at hb
  | cons a t ih =>
    intro b hnd hb
    rcases List.mem_cons.mp hb with rfl | hbt
    · simp [List.find?_cons]
    · have hne : ¬(a.name == b.name) = true := by
        simp only [List.map_cons, List.nodup_cons] at hnd
        intro h
        exact hnd.1 (by
          rw [beq_iff_eq] at h
          rw [h]
          exact List.mem_map_of_mem Biomark.name hbt)
      rw [List.find?_cons]
      simp only [hne]
      exact ih b ((List.nodup_cons.mp (by simpa using hnd)).2) hbt

theorem mem_seq_zero {rs : List RX} {cs : List Char} {x : ℕ × Caps} :
    x ∈ matchSeqF 0 rs cs ↔ False := by
  simp [matchSeqF]

theorem mem_seq_nil {f : ℕ} {cs : List Char} {x : ℕ × Caps} :
    x ∈ matchSeqF (f + 1) [] cs ↔ x = (0, ([] : Caps)) := by
  simp [matchSeqF]

theorem mem_seq_one_nil {f : ℕ} {p : Char → Bool} {rs : List RX} {x : ℕ × Caps} :
    x ∈ matchSeqF (f + 1) (.one p :: rs) [] ↔ False := by
  simp [matchSeqF]

theorem mem_seq_one {f : ℕ} {p : Char → Bool} {rs : List RX} {c : Char}
    {cs' : List Char} {x : ℕ × Caps} :
    x ∈ matchSeqF (f + 1) (.one p :: rs) (c :: cs') ↔
      p c = true ∧ ∃ y ∈ matchSeqF f rs cs', x = (1 + y.1, y.2) := by
  by_cases h : p c
  · simp [matchSeqF, h, List.mem_flatMap, eq_comm]
  · simp [matchSeqF, h]

theorem mem_seq_star {f : ℕ} {p : Char → Bool} {rs : List RX} {cs : List Char}
    {x : ℕ × Caps} :
    x ∈ matchSeqF (f + 1) (.star p :: rs) cs ↔
      ∃ k, k ∈ starAlts p cs ∧ ∃ y ∈ matchSeqF f rs (cs.drop k), x = (k + y.1, y.2) := by
  simp [matchSeqF, List.mem_flatMap, eq_comm]
  aesop

theorem mem_seq_plus {f : ℕ} {p : Char → Bool} {rs : List RX} {cs : List Char}
    {x : ℕ × Caps} :
    x ∈ matchSeqF (f + 1) (.plus p :: rs) cs ↔
      ∃ k, k ∈ plusAlts p cs ∧ ∃ y ∈ matchSeqF f rs (cs.drop k), x = (k + y.1, y.2) := by
  simp [matchSeqF, List.mem_flatMap, eq_comm]
  aesop

theorem mem_seq_opt {f : ℕ} {inner rs : List RX} {cs : List Char} {x : ℕ × Caps} :
    x ∈ matchSeqF (f + 1) (.opt inner :: rs) cs ↔
      (∃ a ∈ matchSeqF f inner cs, ∃ y ∈ matchSeqF f rs (cs.drop a.1),
        x = (a.1 + y.1, a.2 ++ y.2)) ∨
      (∃ y ∈ matchSeqF f rs cs, x = (y.1, y.2)) := by
  simp [matchSeqF, List.mem_flatMap, eq_comm]

theorem mem_seq_grp {f : ℕ} {i : ℕ} {inner rs : List RX} {cs : List Char}
    {x : ℕ × Caps} :
    x ∈ matchSeqF (f + 1) (.grp i inner :: rs) cs ↔
      ∃ a ∈ matchSeqF f inner cs, ∃ y ∈ matchSeqF f rs (cs.drop a.1),
        x = (a.1 + y.1, (a.2 ++ [(i, cs.take a.1)]) ++ y.2) := by
  simp [matchSeqF, List.mem_flatMap, eq_comm]
  aesop

theorem mem_seq_eol {f : ℕ} {rs : List RX} {cs : List Char} {x : ℕ × Caps} :
    x ∈ matchSeqF (f + 1) (.eol :: rs) cs ↔
      (cs.isEmpty || cs == ['\n']) = true ∧ ∃ y ∈ matchSeqF f rs cs, x = (y.1, y.2) := by
  by_cases h : (cs.isEmpty || cs == ['\n']) = true
  · simp [matchSeqF, h, List.mem_flatMap, eq_comm]
  · simp [matchSeqF, h]

theorem mem_starAlts {p : Char → Bool} {cs : List Char} {k : ℕ} :
    k ∈ starAlts p cs ↔ k ≤ (cs.takeWhile p).length := by
  simp [starAlts, Nat.lt_succ_iff]

theorem mem_plusAlts {p : Char → Bool} {cs : List Char} {k : ℕ} :
    k ∈ plusAlts p cs ↔ 1 ≤ k ∧ k ≤ (cs.takeWhile p).length := by
  simp only [plusAlts, List.mem_map, List.mem_reverse, List.mem_range]
  constructor
  · rintro ⟨a, ha, rfl⟩; omega
  · intro h; exact ⟨k - 1, by omega, by omega⟩

theorem pyIsDigit_facts {c : Char} (h : pyIsDigit c = true) :
    c ≠ '.' ∧ c ≠ '_' ∧ c ≠ '+' ∧ c ≠ '-' ∧ c.toLower = c ∧ isPySpace c = false ∧
      c ≠ 'e' ∧ c ≠ 'E' ∧ c ≠ 'i' ∧ c ≠ 'n' := by
  simp only [pyIsDigit, Bool.or_eq_true, decide_eq_true_eq] at h
  rcases h with ((((((((rfl | rfl) | rfl) | rfl) | rfl) | rfl) | rfl) | rfl) | rfl) | rfl <;> decide

theorem numShapeAfter_all_digits :
    ∀ {l : List Char}, l.all pyIsDigit = true → numShapeAfter l = true := by
  intro l
  induction l with
  | nil => intro _; rfl
  | cons c t ih =>
    intro h
    rw [List.all_cons, Bool.and_eq_true] at h
    have hne := (pyIsDigit_facts h.1).1
    simp [numShapeAfter, hne, h.1, ih h.2]

theorem numShapeAfter_append_dot {A C : List Char} (hA : A.all pyIsDigit = true)
    (hC : C.all pyIsDigit = true) : numShapeAfter (A ++ '.' :: C) = true := by
  induction A with
  | nil => simp [numShapeAfter, hC]
  | cons a t ih =>
    rw [List.all_cons, Bool.and_eq_true] at hA
    have hne := (pyIsDigit_facts hA.1).1
    simp [numShapeAfter, hne, hA.1, ih hA.2]

theorem numShape_digits_dot {A C : List Char} (hA : A.all pyIsDigit = true)
    (hne : A ≠ []) (hC : C.all pyIsDigit = true) :
    numShape (A ++ '.' :: C) = true := by
  cases A with
  | nil => exact absurd rfl hne
  | cons a t =>
    rw [List.all_cons, Bool.and_eq_true] at hA
    simp [numShape, hA.1, numShapeAfter_append_dot hA.2 hC]

theorem numShape_digits {A C : List Char} (hA : A.all pyIsDigit = true)
    (hne : A ≠ []) (hC : C.all pyIsDigit = true) :
    numShape (A ++ C) = true := by
  cases A with
  | nil => exact absurd rfl hne
  | cons a t =>
    rw [List.all_cons, Bool.and_eq_true] at hA
    have : (t ++ C).all pyIsDigit = true := by
      rw [List.all_append, hA.2, hC]
      rfl
    simp [numShape, hA.1, numShapeAfter_all_digits this]

theorem take_all_of_le_takeWhile {p : Char → Bool} :
    ∀ (cs : List Char) (k : ℕ), k ≤ (cs.takeWhile p).length →
      (cs.take k).all p = true := by
  intro cs
  induction cs with
  | nil => intro k h; simp at h; simp [h]
  | cons c t ih =>
    intro k h
    by_cases hp : p c
    · rw [List.takeWhile_cons_of_pos hp] at h
      cases k with
      | zero => simp
      | succ m =>
        simp only [List.length_cons, Nat.succ_le_succ_iff] at h
        simp [List.take_succ_cons, hp, ih m h]
    · rw [List.takeWhile_cons_of_neg hp] at h
      simp at h
      simp [h]

theorem take_nonempty {cs : List Char} {k : ℕ} (hk : 1 ≤ k)
    (hlen : k ≤ cs.length) : cs.take k ≠ [] := by
  intro h
  rcases List.take_eq_nil_iff.mp h with h0 | h0
  · omega
  · subst h0; simp at hlen; omega

theorem takeWhile_len_le {p : Char → Bool} :
    ∀ (l : List Char), (l.takeWhile p).length ≤ l.length := by
  intro l
  induction l with
  | nil => simp
  | cons c t ih =>
    by_cases hp : p c
    · rw [List.takeWhile_cons_of_pos hp]
      simpa using ih
    · rw [List.takeWhile_cons_of_neg hp]
      simp

theorem caps_numRX_any :
    ∀ (fl : ℕ) (cs : List Char) (x : ℕ × Caps), x ∈ matchSeqF fl numRX cs →
      x.2 = [] ∧ numShape (cs.take x.1) = true := by
  intro fl
  rcases fl with _ | (_ | (_ | (_ | f)))
  · intro cs x hx; simp [matchSeqF] at hx
  · intro cs x hx; simp [matchSeqF, numRX] at hx
  · intro cs x hx; simp [matchSeqF, numRX] at hx
  · intro cs x hx; simp [matchSeqF, numRX] at hx
  · intro cs x hx
    simp only [numRX] at hx
    rcases mem_seq_plus.mp hx with ⟨k, hk, y, hy, rfl⟩
    rcases mem_plusAlts.mp hk with ⟨hk1, hk2⟩
    have hAdig : (cs.take k).all pyIsDigit = true := take_all_of_le_takeWhile cs k hk2
    have hAne : cs.take k ≠ [] := by
      exact take_nonempty hk1 (le_trans hk2 (takeWhile_len_le cs))
    rcases mem_seq_opt.mp hy with ⟨a, ha, z, hz, rfl⟩ | ⟨z, hz, rfl⟩
    · -- the optional dot is present
      rcases hcs2 : cs.drop k with _ | ⟨c, cs3⟩
      · rw [hcs2] at ha
        exact absurd ha (by simp [mem_seq_one_nil])
      · rw [hcs2] at ha
        rcases mem_seq_one.mp ha with ⟨hc, w, hw, rfl⟩
        have hcdot : c = '.' := by simpa [dotP] using hc
        rcases mem_seq_nil.mp hw with rfl
        rcases mem_seq_star.mp hz with ⟨m, hm, w2, hw2, rfl⟩
        rcases mem_seq_nil.mp hw2 with rfl
        rcases mem_starAlts.mp hm with hm2
        simp only [Prod.fst, Prod.snd, Nat.add_zero, List.append_nil] at hm2 ⊢
        constructor
        · simp
        · have hdrop : (cs.drop k).drop 1 = cs3 := by
            rw [hcs2]; rfl
          rw [hdrop] at hm2
          have hCdig : (cs3.take m).all pyIsDigit = true :=
            take_all_of_le_takeWhile cs3 m hm2
          rw [List.take_add, hcs2]
          have hto : (c :: cs3).take (1 + m) = c :: cs3.take m := by
            rw [Nat.add_comm 1 m, List.take_succ_cons]
          rw [hto, hcdot]
          exact numShape_digits_dot hAdig hAne hCdig
    · -- the optional dot is absent
      rcases mem_seq_star.mp hz with ⟨m, hm, w2, hw2, rfl⟩
      rcases mem_seq_nil.mp hw2 with rfl
      rcases mem_starAlts.mp hm with hm2
      simp only [Prod.fst, Prod.snd, Nat.add_zero, List.append_nil] at hm2 ⊢
      constructor
      · simp
      · have hCdig : ((cs.drop k).take m).all pyIsDigit = true :=
          take_all_of_le_takeWhile (cs.drop k) m hm2
        rw [List.take_add]
        exact numShape_digits hAdig hAne hCdig

theorem caps_capless :
    ∀ (rs : List RX), (∀ r ∈ rs, caplessB r = true) →
      ∀ (fl : ℕ) (cs : List Char) (x : ℕ × Caps), x ∈ matchSeqF fl rs cs →
        x.2 = [] := by
  intro rs
  induction rs with
  | nil =>
    intro _ fl cs x hx
    rcases fl with _ | f
    · simp [matchSeqF] at hx
    · rcases mem_seq_nil.mp hx with rfl; rfl
  | cons r rs' ih =>
    intro hcl fl cs x hx
    have hr : caplessB r = true := hcl r (List.mem_cons_self r rs')
    have hrs' : ∀ a ∈ rs', caplessB a = true :=
      fun a ha => hcl a (List.mem_cons_of_mem r ha)
    rcases fl with _ | f
    · simp [matchSeqF] at hx
    · cases r with
      | one p =>
        cases cs with
        | nil => simp [mem_seq_one_nil] at hx
        | cons c cs' =>
          rcases mem_seq_one.mp hx with ⟨_, y, hy, rfl⟩
          exact ih hrs' f cs' y hy
      | star p =>
        rcases mem_seq_star.mp hx with ⟨k, _, y, hy, rfl⟩
        exact ih hrs' f _ y hy
      | plus p =>
        rcases mem_seq_plus.mp hx with ⟨k, _, y, hy, rfl⟩
        exact ih hrs' f _ y hy
      | eol =>
        rcases mem_seq_eol.mp hx with ⟨_, y, hy, rfl⟩
        exact ih hrs' f _ y hy
      | opt inner => simp [caplessB] at hr
      | grp i inner => simp [caplessB] at hr

theorem caps_grp_between :
    ∀ (pre : List RX), (∀ r ∈ pre, caplessB r = true) →
      ∀ (tail : List RX), (∀ r ∈ tail, caplessB r = true) →
        ∀ (fl : ℕ) (cs : List Char) (x : ℕ × Caps),
          x ∈ matchSeqF fl (pre ++ .grp 1 numRX :: tail) cs →
            ∃ g, x.2.lookup 1 = some g ∧ numShape g = true := by
  intro pre
  induction pre with
  | nil =>
    intro _ tail htail fl cs x hx
    rcases fl with _ | f
    · simp [matchSeqF] at hx
    · rw [List.nil_append] at hx
      rcases mem_seq_grp.mp hx with ⟨a, ha, y, hy, rfl⟩
      have hnum := caps_numRX_any f cs a ha
      have hy2 := caps_capless tail htail f _ y hy
      refine ⟨cs.take a.1, ?_, hnum.2⟩
      rw [hnum.1, hy2]
      simp
  | cons r pre' ih =>
    intro hcl tail htail fl cs x hx
    have hr : caplessB r = true := hcl r (List.mem_cons_self r pre')
    have hpre' : ∀ a ∈ pre', caplessB a = true :=
      fun a ha => hcl a (List.mem_cons_of_mem r ha)
    rcases fl with _ | f
    · simp [matchSeqF] at hx
    · rw [List.cons_append] at hx
      cases r with
      | one p =>
        cases cs with
        | nil => simp [mem_seq_one_nil] at hx
        | cons c cs' =>
          rcases mem_seq_one.mp hx with ⟨_, y, hy, rfl⟩
          exact ih hpre' tail htail f cs' y hy
      | star p =>
        rcases mem_seq_star.mp hx with ⟨k, _, y, hy, rfl⟩
        exact ih hpre' tail htail f _ y hy
      | plus p =>
        rcases mem_seq_plus.mp hx with ⟨k, _, y, hy, rfl⟩
        exact ih hpre' tail htail f _ y hy
      | eol =>
        rcases mem_seq_eol.mp hx with ⟨_, y, hy, rfl⟩
        exact ih hpre' tail htail f _ y hy
      | opt inner => simp [caplessB] at hr
      | grp i inner => simp [caplessB] at hr

theorem mem_of_head?_eq_some {α : Type _} {l : List α} {x : α}
    (h : l.head? = some x) : x ∈ l := by
  cases l with
  | nil => simp at h
  | cons a t =>
    simp only [List.head?_cons, Option.some.injEq] at h
    rw [← h]
    exact List.mem_cons_self a t

theorem reSearchAux_shape {pat : List RX}
    (hpat : ∀ (cs : List Char) (x : ℕ × Caps), x ∈ matchSeqF 1000 pat cs →
      ∃ g, x.2.lookup 1 = some g ∧ numShape g = true) :
    ∀ (cs : List Char) (caps : Caps), reSearchAux pat cs = some caps →
      ∃ g, caps.lookup 1 = some g ∧ numShape g = true := by
  intro cs
  induction cs with
  | nil =>
    intro caps h
    rcases hh : (matchSeqF 1000 pat []).head? with _ | x
    · simp [reSearchAux, hh] at h
    · simp only [reSearchAux, hh, Option.map, Option.some.injEq] at h
      rw [← h]
      exact hpat [] x (mem_of_head?_eq_some hh)
  | cons c rest ih =>
    intro caps h
    rcases hh : (matchSeqF 1000 pat (c :: rest)).head? with _ | x
    · rw [reSearchAux, hh] at h
      exact ih caps h
    · rw [reSearchAux, hh] at h
      simp only [Option.some.injEq] at h
      rw [← h]
      exact hpat (c :: rest) x (mem_of_head?_eq_some hh)

theorem shape_patA :
    ∀ (cs : List Char) (x : ℕ × Caps), x ∈ matchSeqF 1000 patA cs →
      ∃ g, x.2.lookup 1 = some g ∧ numShape g = true := by
  intro cs x hx
  refine caps_grp_between [] (by simp) [.star isPySpace, chL '%'] ?_ 1000 cs x hx
  simp [List.forall_mem_cons, caplessB, chL]

theorem shape_patB :
    ∀ (cs : List Char) (x : ℕ × Caps), x ∈ matchSeqF 1000 patB cs →
      ∃ g, x.2.lookup 1 = some g ∧ numShape g = true := by
  intro cs x hx
  have hrw : patB = (hplcRX ++ [.star isPySpace]) ++ .grp 1 numRX :: [] := rfl
  rw [hrw] at hx
  refine caps_grp_between (hplcRX ++ [.star isPySpace]) ?_ [] (by simp) 1000 cs x hx
  simp [hplcRX, List.forall_mem_cons, caplessB, chL, chCI]

theorem shape_patC :
    ∀ (cs : List Char) (x : ℕ × Caps), x ∈ matchSeqF 1000 patC cs →
      ∃ g, x.2.lookup 1 = some g ∧ numShape g = true := by
  intro cs x hx
  have hrw : patC = ([] : List RX) ++ .grp 1 numRX :: (.star isPySpace :: hplcRX) := rfl
  rw [hrw] at hx
  refine caps_grp_between [] (by simp) (.star isPySpace :: hplcRX) ?_ 1000 cs x hx
  simp [hplcRX, List.forall_mem_cons, caplessB, chL, chCI]

theorem shape_patD :
    ∀ (cs : List Char) (x : ℕ × Caps), x ∈ matchSeqF 1000 patD cs →
      ∃ g, x.2.lookup 1 = some g ∧ numShape g = true := by
  intro cs x hx
  refine caps_grp_between [] (by simp) [.star isPySpace, .eol] ?_ 1000 cs x hx
  simp [List.forall_mem_cons, caplessB]

theorem patLoop_shape {cs : List Char} {caps : Caps}
    (h : patLoop hbPatterns cs = some caps) :
    ∃ g, caps.lookup 1 = some g ∧ numShape g = true := by
  simp only [hbPatterns, patLoop] at h
  rcases h1 : reSearch patA cs with _ | c1
  case some =>
    rw [h1] at h
    simp only [Option.some.injEq] at h
    subst h
    exact reSearchAux_shape shape_patA cs c1 h1
  case none =>
  rw [h1] at h
  rcases h2 : reSearch patB cs with _ | c2
  case some =>
    rw [h2] at h
    simp only [Option.some.injEq] at h
    subst h
    exact reSearchAux_shape shape_patB cs c2 h2
  case none =>
  rw [h2] at h
  rcases h3 : reSearch patC cs with _ | c3
  case some =>
    rw [h3] at h
    simp only [Option.some.injEq] at h
    subst h
    exact reSearchAux_shape shape_patC cs c3 h3
  case none =>
  rw [h3] at h
  rcases h4 : reSearch patD cs with _ | c4
  case some =>
    rw [h4] at h
    simp only [Option.some.injEq] at h
    subst h
    exact reSearchAux_shape shape_patD cs c4 h4
  case none =>
  rw [h4] at h
  simp at h

theorem numShapeAfter_decomp :
    ∀ (l : List Char), numShapeAfter l = true →
      ∃ D1 rest, l = D1 ++ rest ∧ D1.all pyIsDigit = true ∧
        (rest = [] ∨ ∃ D2, rest = '.' :: D2 ∧ D2.all pyIsDigit = true) := by
  intro l
  induction l with
  | nil => intro _; exact ⟨[], [], rfl, rfl, Or.inl rfl⟩
  | cons c t ih =>
    intro h
    by_cases hc : c = '.'
    · subst hc
      simp only [numShapeAfter, if_pos rfl] at h
      exact ⟨[], '.' :: t, rfl, rfl, Or.inr ⟨t, rfl, h⟩⟩
    · simp only [numShapeAfter, if_neg hc, Bool.and_eq_true] at h
      rcases ih h.2 with ⟨D1, rest, heq, hD1, hrest⟩
      refine ⟨c :: D1, rest, ?_, ?_, hrest⟩
      · rw [List.cons_append, heq]
      · rw [List.all_cons, h.1, hD1]; rfl

theorem numShape_decomp {l : List Char} (h : numShape l = true) :
    ∃ D1 rest, l = D1 ++ rest ∧ D1 ≠ [] ∧ D1.all pyIsDigit = true ∧
      (rest = [] ∨ ∃ D2, rest = '.' :: D2 ∧ D2.all pyIsDigit = true) := by
  cases l with
  | nil => simp [numShape] at h
  | cons c t =>
    simp only [numShape, Bool.and_eq_true] at h
    rcases numShapeAfter_decomp t h.2 with ⟨D1, rest, heq, hD1, hrest⟩
    refine ⟨c :: D1, rest, ?_, by simp, ?_, hrest⟩
    · rw [List.cons_append, heq]
    · rw [List.all_cons, h.1, hD1]; rfl

theorem dropWhile_eq_self_of_none {p : Char → Bool} {l : List Char}
    (h : ∀ c ∈ l, p c = false) : l.dropWhile p = l := by
  cases l with
  | nil => rfl
  | cons c t =>
    rw [List.dropWhile_cons]
    simp [h c (List.mem_cons_self c t)]

theorem pyStrip_of_no_space {l : List Char}
    (h : ∀ c ∈ l, isPySpace c = false) : pyStrip l = l := by
  unfold pyStrip
  rw [dropWhile_eq_self_of_none h]
  rw [dropWhile_eq_self_of_none (fun c hc => h c (List.mem_reverse.mp hc))]
  exact List.reverse_reverse l

theorem map_toLower_eq_self {l : List Char}
    (h : ∀ c ∈ l, c.toLower = c) : l.map Char.toLower = l := by
  induction l with
  | nil => rfl
  | cons c t ih =>
    rw [List.map_cons, h c (List.mem_cons_self c t),
      ih (fun a ha => h a (List.mem_cons_of_mem c ha))]

theorem digitsUnd_all :
    ∀ (D : List Char), D.all pyIsDigit = true →
      ∀ (r : List Char), (r = [] ∨ ∃ t, r = '.' :: t) →
        digitsUnd (D ++ r) = (D, r) := by
  intro D
  induction D with
  | nil =>
    intro _ r hr
    rcases hr with rfl | ⟨t, rfl⟩
    · rfl
    · simp [digitsUnd.eq_def, pyIsDigit]
  | cons e D' ih =>
    intro hD r hr
    rw [List.all_cons, Bool.and_eq_true] at hD
    have hf := pyIsDigit_facts hD.1
    rw [List.cons_append]
    show digitsUnd (e :: (D' ++ r)) = (e :: D', r)
    rw [digitsUnd.eq_def]
    simp only [if_neg hf.2.1, if_pos hD.1, ih hD.2 r hr]

theorem decPow_nonneg {m e : ℤ} (hm : 0 ≤ m) : 0 ≤ decPow m e := by
  unfold decPow
  split
  · rw [Rat.mkRat_eq_div]
    refine div_nonneg ?_ (by norm_num)
    have hmm : (0 : ℤ) ≤ m * 10 ^ e.toNat :=
      mul_nonneg hm (pow_nonneg (by norm_num) _)
    exact_mod_cast hmm
  · rw [Rat.mkRat_eq_div]
    refine div_nonneg (by exact_mod_cast hm) ?_
    positivity

theorem decValue_nonneg {d1 d2 : List Char} {e : ℤ} : 0 ≤ decValue d1 d2 e := by
  unfold decValue
  exact decPow_nonneg (Int.ofNat_nonneg _)

theorem all_mem_digits {l : List Char} (h : l.all pyIsDigit = true) :
    ∀ c ∈ l, pyIsDigit c = true := fun c hc => List.all_eq_true.mp h c hc

theorem pyFloat_numShape {l : List Char} (h : numShape l = true) :
    ∃ q : ℚ, 0 ≤ q ∧ pyFloatOfChars l = some (.finite q) := by
  rcases numShape_decomp h with ⟨D1, rest, rfl, hne, hdig, hrest⟩
  have hmem : ∀ c ∈ D1 ++ rest, pyIsDigit c = true ∨ c = '.' := by
    intro c hc
    rcases List.mem_append.mp hc with hc1 | hc2
    · exact Or.inl (all_mem_digits hdig c hc1)
    · rcases hrest with rfl | ⟨D2, rfl, hD2⟩
      · simp at hc2
      · rcases List.mem_cons.mp hc2 with rfl | hc3
        · exact Or.inr rfl
        · exact Or.inl (all_mem_digits hD2 c hc3)
  have hnospace : ∀ c ∈ D1 ++ rest, isPySpace c = false := by
    intro c hc
    rcases hmem c hc with hd | rfl
    · exact (pyIsDigit_facts hd).2.2.2.2.2.1
    · decide
  have hstrip := pyStrip_of_no_space hnospace
  rcases D1 with _ | ⟨d, D1'⟩
  · exact absurd rfl hne
  rw [List.all_cons, Bool.and_eq_true] at hdig
  have hfacts := pyIsDigit_facts hdig.1
  have hsign : parseSign ((d :: D1') ++ rest) = (false, (d :: D1') ++ rest) := by
    rw [List.cons_append, parseSign]
    rw [if_neg hfacts.2.2.2.1, if_neg hfacts.2.2.1]
  have hlower : ((d :: D1') ++ rest).map Char.toLower = (d :: D1') ++ rest := by
    refine map_toLower_eq_self ?_
    intro c hc
    rcases hmem c hc with hdg | rfl
    · exact (pyIsDigit_facts hdg).2.2.2.2.1
    · decide
  have hkinf : ¬((d :: D1') ++ rest = "inf".data ∨ (d :: D1') ++ rest = "infinity".data) := by
    rintro (heq | heq) <;>
    · rw [List.cons_append] at heq
      have hd := List.head_eq_of_cons_eq heq
      exact hfacts.2.2.2.2.2.2.2.2.1 hd
  have hknan : ¬((d :: D1') ++ rest = "nan".data) := by
    intro heq
    rw [List.cons_append] at heq
    have hd := List.head_eq_of_cons_eq heq
    exact hfacts.2.2.2.2.2.2.2.2.2 hd
  have hpd : parseDigitPart ((d :: D1') ++ rest) = some (d :: D1', rest) := by
    rw [List.cons_append, parseDigitPart]
    rw [if_pos hdig.1]
    have hr : rest = [] ∨ ∃ t, rest = '.' :: t := by
      rcases hrest with rfl | ⟨D2, rfl, _⟩
      · exact Or.inl rfl
      · exact Or.inr ⟨D2, rfl⟩
    rw [digitsUnd_all D1' hdig.2 rest hr]
  have hbody : ∃ q : ℚ, 0 ≤ q ∧
      parseNumBody ((d :: D1') ++ rest) = some (q, []) := by
    rcases hrest with rfl | ⟨D2, rfl, hD2⟩
    · refine ⟨decValue (d :: D1') [] 0, decValue_nonneg, ?_⟩
      rw [parseNumBody.eq_def, hpd]
      simp [parseExp]
    · rcases D2 with _ | ⟨e, D2'⟩
      · refine ⟨decValue (d :: D1') [] 0, decValue_nonneg, ?_⟩
        rw [parseNumBody.eq_def, hpd]
        simp [parseDigitPart, parseExp]
      · refine ⟨decValue (d :: D1') (e :: D2') 0, decValue_nonneg, ?_⟩
        rw [parseNumBody.eq_def, hpd]
        rw [List.all_cons, Bool.and_eq_true] at hD2
        have hpd2 : parseDigitPart (e :: D2') = some (e :: D2', []) := by
          rw [parseDigitPart]
          rw [if_pos hD2.1]
          have := digitsUnd_all D2' hD2.2 [] (Or.inl rfl)
          rw [List.append_nil] at this
          rw [this]
        simp [hpd2, parseExp]
  rcases hbody with ⟨q, hq, hnb⟩
  refine ⟨q, hq, ?_⟩
  rw [pyFloatOfChars]
  rw [hstrip, hsign]
  simp only []
  rw [hlower]
  rw [if_neg hkinf, if_neg hknan, hnb]
  simp

theorem wordScanE_ok : ∀ (ws : List (List Char)), wordScanE ws = .ok (wordScanPure ws) := by
  intro ws
  induction ws with
  | nil => rfl
  | cons w ws' ih =>
    rcases hpf : pyFloatOfChars w with _ | v
    · simp [wordScanE, wordScanPure, pyFloatE, hpf, ih]
    · simp [wordScanE, wordScanPure, pyFloatE, hpf]

theorem extract_value_body_ok (line bname : String) :
    extract_value_bodyE line bname = .ok (extract_value line bname) := by
  rw [extract_value_bodyE, extract_value]
  by_cases hsub : isSub "hba1c".data (pyLower bname.data) = true
  · rw [if_pos hsub, if_pos hsub]
    rcases hpl : patLoop hbPatterns (pyClean line.data) with _ | caps
    · exact wordScanE_ok _
    · rcases patLoop_shape hpl with ⟨g, hg, hshape⟩
      rcases pyFloat_numShape hshape with ⟨q, _, hpf⟩
      simp [groupFloat, hg, hpf, pyFloatE, Except.map]
  · rw [if_neg hsub, if_neg hsub]
    exact wordScanE_ok _

theorem attemptAt_set_value {lines : List String} {i : ℕ} {b : Biomark}
    {x : Option PyFloat} :
    attemptAt lines i { b with value := x } = attemptAt lines i b := by
  cases b; rfl

theorem foldl_stepLine (lines : List String) :
    ∀ (idxs : List ℕ) (st : List Biomark),
      idxs.foldl (fun s i => stepLine lines i s) st =
        st.map (fun b =>
          match b.value with
          | some _ => b
          | none => { b with value := idxs.findSome? (fun i => attemptAt lines i b) }) := by
  intro idxs
  induction idxs with
  | nil =>
    intro st
    rw [List.foldl_nil]
    conv_lhs => rw [← List.map_id st]
    apply List.map_congr_left
    intro b _
    rcases hb : b.value with _ | v
    · cases b
      simp_all
    · simp [hb]
  | cons i idxs ih =>
    intro st
    rw [List.foldl_cons, ih, stepLine, List.map_map]
    apply List.map_congr_left
    intro b _
    rcases hb : b.value with _ | v
    · simp only [Function.comp_apply, hb]
      rcases ha : attemptAt lines i b with _ | v2
      · have h1 : patternLoop lines i (lines.getD i "") b.name b.patterns = none := ha
        simp only [h1]
        rw [List.findSome?_cons]
        simp only [ha, attemptAt_set_value]
      · have h1 : patternLoop lines i (lines.getD i "") b.name b.patterns = some v2 := ha
        simp only [h1]
        rw [List.findSome?_cons]
        simp only [ha]
    · simp [hb]

theorem biomarkers0_values_none : ∀ b ∈ biomarkers0, b.value = none := by
  decide

theorem extractAll_eq (lines : List String) :
    extractAll lines = biomarkers0.map (fun b =>
      { b with
        value := (List.range lines.length).findSome? (fun i => attemptAt lines i b) }) := by
  rw [extractAll, foldl_stepLine]
  apply List.map_congr_left
  intro b hb
  rw [biomarkers0_values_none b hb]

theorem valueOf_extractAll (lines : List String) (b : Biomark) (hb : b ∈ biomarkers0) :
    valueOf (extractAll lines) b.name =
      (List.range lines.length).findSome? (fun i => attemptAt lines i b) := by
  rw [valueOf, extractAll_eq, find?_map_keep]
  have hfun : (fun x : Biomark =>
      ((fun y : Biomark => { y with
        value := (List.range lines.length).findSome?
          (fun i => attemptAt lines i y) }) x).name == b.name) =
      (fun x : Biomark => x.name == b.name) := by
    funext x
    cases x
    rfl
  rw [hfun]
  rw [find?_name_of_mem_nodup biomarkers0 b (by decide) hb]
  rfl

theorem range_getD {n i : ℕ} (h : i < n) : (List.range n).getD i 0 = i := by
  rw [getD_eq_getElem?]
  rw [List.getElem?_range h]
  rfl

theorem lookaheadScan_frame (lines lines' : List String) (idx : ℕ) :
    ∀ (offs : List ℕ), (∀ o ∈ offs, lines[idx + o]? = lines'[idx + o]?) →
      lookaheadScan lines idx offs = lookaheadScan lines' idx offs := by
  intro offs
  induction offs with
  | nil => intro _; rfl
  | cons o offs ih =>
    intro h
    have ho := h o (List.mem_cons_self o offs)
    have hrest : ∀ o' ∈ offs, lines[idx + o']? = lines'[idx + o']? :=
      fun o' ho' => h o' (List.mem_cons_of_mem o ho')
    rw [lookaheadScan, lookaheadScan]
    rcases hg : lines[idx + o]? with _ | l1
    · have hna : ¬ idx + o < lines.length := by
        intro hlt
        have := (isSome_getElem?_iff lines (idx + o)).mpr hlt
        rw [hg] at this
        simp at this
      have hna' : ¬ idx + o < lines'.length := by
        intro hlt
        have := (isSome_getElem?_iff lines' (idx + o)).mpr hlt
        rw [← ho, hg] at this
        simp at this
      rw [if_neg hna, if_neg hna']
      exact ih hrest
    · have hsa : idx + o < lines.length :=
        (isSome_getElem?_iff lines (idx + o)).mp (by rw [hg]; rfl)
      have hsa' : idx + o < lines'.length :=
        (isSome_getElem?_iff lines' (idx + o)).mp (by rw [← ho, hg]; rfl)
      rw [if_pos hsa, if_pos hsa']
      have hd : lines.getD (idx + o) "" = l1 := by
        rw [getD_eq_getElem?, hg]; rfl
      have hd' : lines'.getD (idx + o) "" = l1 := by
        rw [getD_eq_getElem?, ← ho, hg]; rfl
      rw [hd, hd']
      rcases hev : extract_value l1 "HbA1c" with _ | v
      · simp only [hev]
        exact ih hrest
      · simp only [hev]

theorem lookaheadScan_stop (lines : List String) (idx : ℕ) (v : PyFloat)
    (hlt : idx + 1 < lines.length)
    (hev : extract_value (lines.getD (idx + 1) "") "HbA1c" = some v) :
    lookaheadScan lines idx [1, 2] = some v := by
  rw [lookaheadScan, if_pos hlt]
  simp only [hev]

theorem patternLoop_no_lookahead (lines lines' : List String) (idx idx' : ℕ)
    (line bname : String) (hname : ¬ bname = "HbA1c") :
    ∀ (ps : List String),
      patternLoop lines idx line bname ps = patternLoop lines' idx' line bname ps := by
  intro ps
  induction ps with
  | nil => rfl
  | cons p ps ih =>
    rw [patternLoop, patternLoop]
    by_cases hs : isSub (pyLower p.data) (pyLower line.data) = true
    · rw [if_pos hs, if_pos hs, if_neg hname, if_neg hname]
      rcases hev : extract_value line bname with _ | v
      · simp only [hev]
        exact ih
      · simp only [hev]
    · rw [if_neg hs, if_neg hs]
      exact ih

theorem patientLoop_eq (now : String) :
    ∀ (ls : List String),
      patientLoop now ls = (ls.findSome? (lineInfo now)).getD (unknownPatient now) := by
  intro ls
  induction ls with
  | nil => rfl
  | cons line rest ih =>
    rw [patientLoop, List.findSome?_cons]
    by_cases hs : isSub "NAME".data line.data = true
    · rw [if_pos hs]
      rcases hr : reSearch patientRX line.data with _ | caps
      · simp only [lineInfo, if_pos hs, hr, Option.map]
        exact ih
      · simp only [lineInfo, if_pos hs, hr, Option.map]
        rfl
    · rw [if_neg hs]
      simp only [lineInfo, if_neg hs]
      exact ih

theorem extractAll_names (lines : List String) :
    (extractAll lines).map Biomark.name = biomarkers0.map Biomark.name := by
  rw [extractAll_eq, List.map_map]
  apply List.map_congr_left
  intro b _
  cases b
  rfl

theorem extractAll_mem_name {lines : List String} {b : Biomark}
    (hb : b ∈ extractAll lines) : b.name ∈ vocab := by
  have h1 : b.name ∈ (extractAll lines).map Biomark.name :=
    List.mem_map_of_mem Biomark.name hb
  rw [extractAll_names] at h1
  have h2 : biomarkers0.map Biomark.name = vocab := by decide
  rw [h2] at h1
  exact h1

theorem lookup_range_of_vocab {nm : String} (h : nm ∈ vocab) :
    (get_reference_ranges.lookup nm).isSome = true := by
  simp only [vocab, List.mem_cons, List.not_mem_nil, or_false] at h
  rcases h with rfl | rfl | rfl | rfl | rfl | rfl | rfl | rfl <;> decide

theorem assembleBiomarkers_spec :
    ∀ (st : List Biomark),
      (∀ b ∈ st, (get_reference_ranges.lookup b.name).isSome = true) →
      ∃ m, assembleBiomarkers st = some m ∧
        ∀ nm e, ((nm, e) ∈ m ↔ ∃ b ∈ st, b.name = nm ∧ ∃ v, b.value = some v ∧
          ∃ r, get_reference_ranges.lookup nm = some r ∧
            e = ⟨v, r.unit, r.reference_range, r.low, r.high⟩) := by
  intro st
  induction st with
  | nil => intro _; exact ⟨[], rfl, by simp⟩
  | cons b rest ih =>
    intro hlk
    have hb := hlk b (List.mem_cons_self b rest)
    have hrest : ∀ b' ∈ rest, (get_reference_ranges.lookup b'.name).isSome = true :=
      fun b' hb' => hlk b' (List.mem_cons_of_mem b hb')
    rcases ih hrest with ⟨m, hm, hiff⟩
    rcases hv : b.value with _ | v
    · refine ⟨m, ?_, ?_⟩
      · rw [assembleBiomarkers]
        simp only [hv]
        exact hm
      · intro nm e
        rw [hiff nm e]
        constructor
        · rintro ⟨b', hb', hrest'⟩
          exact ⟨b', List.mem_cons_of_mem b hb', hrest'⟩
        · rintro ⟨b', hb', hnm, v', hv', hr⟩
          rcases List.mem_cons.mp hb' with rfl | hb2
          · rw [hv] at hv'
            cases hv'
          · exact ⟨b', hb2, hnm, v', hv', hr⟩
    · rcases Option.isSome_iff_exists.mp hb with ⟨r, hr⟩
      refine ⟨(b.name, ⟨v, r.unit, r.reference_range, r.low, r.high⟩) :: m, ?_, ?_⟩
      · rw [assembleBiomarkers]
        simp only [hv, hr, hm, Option.map]
      · intro nm e
        constructor
        · intro hmem
          rcases List.mem_cons.mp hmem with heq | hm2
          · simp only [Prod.mk.injEq] at heq
            refine ⟨b, List.mem_cons_self b rest, heq.1.symm, v, hv, r, ?_, heq.2⟩
            rw [heq.1]
            exact hr
          · rcases (hiff nm e).mp hm2 with ⟨b', hb', hnm, v', hv', hrr⟩
            exact ⟨b', List.mem_cons_of_mem b hb', hnm, v', hv', hrr⟩
        · rintro ⟨b', hb', hnm, v', hv', r', hr', he⟩
          rcases List.mem_cons.mp hb' with rfl | hb2
          · rw [hv] at hv'
            injection hv' with hvv
            subst hvv
            subst hnm
            rw [hr] at hr'
            injection hr' with hrr
            subst hrr
            subst he
            exact List.mem_cons_self _ _
          · exact List.mem_cons_of_mem _ ((hiff nm e).mpr ⟨b', hb2, hnm, v', hv', r', hr', he⟩)

theorem valueOf_eq_some_iff :
    ∀ (st : List Biomark), (st.map Biomark.name).Nodup →
      ∀ (nm : String) (v : PyFloat),
        (valueOf st nm = some v ↔ ∃ b ∈ st, b.name = nm ∧ b.value = some v) := by
  intro st
  induction st with
  | nil => intro _ nm v; simp [valueOf]
  | cons b rest ih =>
    intro hnd nm v
    rw [List.map_cons, List.nodup_cons] at hnd
    by_cases hn : b.name = nm
    · have hbeq : (b.name == nm) = true := by simpa using hn
      rw [valueOf, List.find?_cons]
      simp only [hbeq]
      constructor
      · intro hv
        exact ⟨b, List.mem_cons_self b rest, hn, hv⟩
      · rintro ⟨b', hb', hnm, hv'⟩
        rcases List.mem_cons.mp hb' with rfl | hb2
        · exact hv'
        · exfalso
          apply hnd.1
          rw [hn, ← hnm]
          exact List.mem_map_of_mem Biomark.name hb2
    · have hbeq : (b.name == nm) = false := by simpa using hn
      rw [valueOf, List.find?_cons]
      simp only [hbeq]
      rw [← valueOf]
      rw [ih hnd.2 nm v]
      constructor
      · rintro ⟨b', hb', hnm, hv'⟩
        exact ⟨b', List.mem_cons_of_mem b hb', hnm, hv'⟩
      · rintro ⟨b', hb', hnm, hv'⟩
        rcases List.mem_cons.mp hb' with rfl | hb2
        · exact absurd hnm hn
        · exact ⟨b', hb2, hnm, hv'⟩

theorem extractAll_names_nodup (lines : List String) :
    ((extractAll lines).map Biomark.name).Nodup := by
  rw [extractAll_names]
  decide

theorem wordScanPure_eq_findSome? :
    ∀ (ws : List (List Char)), wordScanPure ws = ws.findSome? pyFloatOfChars := by
  intro ws
  induction ws with
  | nil => rfl
  | cons w ws ih =>
    rw [wordScanPure, List.findSome?_cons]
    rcases hw : pyFloatOfChars w with _ | v <;> simp only [hw]
    exact ih

theorem findSome?_none_of_all {α β : Type _} (f : α → Option β) :
    ∀ (l : List α), (∀ a ∈ l, f a = none) → l.findSome? f = none := by
  intro l
  induction l with
  | nil => intro _; rfl
  | cons a t ih =>
    intro h
    rw [List.findSome?_cons, h a (List.mem_cons_self a t)]
    exact ih (fun a' ha' => h a' (List.mem_cons_of_mem a ha'))

/-! ## The claims -/

/-- C1 — First-match-wins: when two lines `i < j` in document order both
yield a successful per-line extraction attempt for the same biomarker (an
alias matches and a value is parsed), and `i` is the first line on which an
attempt succeeds, the scan of `process_pdf_to_json` records the value of
line `i`; the later line `j` cannot overwrite it. -/
theorem extract_first_match_wins (lines : List String) (b : Biomark)
    (hb : b ∈ biomarkers0) (i j : ℕ) (v w : PyFloat) (_hij : i < j)
    (hi : i < lines.length)
    (hsucc : attemptAt lines i b = some v)
    (hfirst : ∀ k, k < i → attemptAt lines k b = none)
    (_hj : attemptAt lines j b = some w) :
    valueOf (extractAll lines) b.name = some v := by
  rw [valueOf_extractAll lines b hb]
  refine findSome?_first (fun i => attemptAt lines i b) 0
    (List.range lines.length) i v ?_ ?_ ?_
  · simpa using hi
  · rw [range_getD hi]
    exact hsucc
  · intro k hk
    rw [range_getD (lt_trans hk hi)]
    exact hfirst k hk

/-- Witness for C1 at a concrete document: two Creatinine lines, the
earlier value 1.2 is retained over the later 3.4. -/
theorem extract_first_match_wins_witness :
    attemptAt ["CREATININE 1.2", "CREATININE 3.4"] 0
      ⟨"Creatinine", ["CREATININE", "CREATININE - SERUM"], none⟩ =
      some (.finite (mkRat 6 5)) ∧
    attemptAt ["CREATININE 1.2", "CREATININE 3.4"] 1
      ⟨"Creatinine", ["CREATININE", "CREATININE - SERUM"], none⟩ =
      some (.finite (mkRat 17 5)) ∧
    valueOf (extractAll ["CREATININE 1.2", "CREATININE 3.4"]) "Creatinine" =
      some (.finite (mkRat 6 5)) := by
  refine ⟨by decide, by decide, ?_⟩
  exact extract_first_match_wins ["CREATININE 1.2", "CREATININE 3.4"]
    ⟨"Creatinine", ["CREATININE", "CREATININE - SERUM"], none⟩ (by decide)
    0 1 (.finite (mkRat 6 5)) (.finite (mkRat 17 5)) (by decide) (by decide)
    (by decide) (fun k hk => absurd hk (by omega)) (by decide)

/-- C2 — counterexample to the claim as stated: on the line "6.1 mg" with
biomarker HbA1c none of the four patterns matches, yet `extract_value`
returns 6.1 rather than absent, because the code falls through to the
generic token scan. -/
theorem hb_no_pattern_fallback_cex :
    reSearch patA (pyClean "6.1 mg".data) = none ∧
    reSearch patB (pyClean "6.1 mg".data) = none ∧
    reSearch patC (pyClean "6.1 mg".data) = none ∧
    reSearch patD (pyClean "6.1 mg".data) = none ∧
    extract_value "6.1 mg" "HbA1c" = some (.finite (mkRat 61 10)) := by
  refine ⟨by decide, by decide, by decide, by decide, by decide⟩

/-- C2 (amended) — HbA1c ordered precedence: the four patterns are tried
in order (percent, HPLC-then-number, number-then-HPLC, number-at-end) and
the captured number of the first match is returned; when none of the four
matches, `extract_value` falls back to the generic rightmost-token scan
(rather than returning absent); concretely "H.P.L.C 6.1" gives 6.1 and
"6.1 %" gives 6.1. -/
theorem hb_pattern_precedence :
    (∀ (line bname : String), isSub "hba1c".data (pyLower bname.data) = true →
      (∀ caps, reSearch patA (pyClean line.data) = some caps →
        extract_value line bname = groupFloat caps) ∧
      (reSearch patA (pyClean line.data) = none →
        ∀ caps, reSearch patB (pyClean line.data) = some caps →
          extract_value line bname = groupFloat caps) ∧
      (reSearch patA (pyClean line.data) = none →
        reSearch patB (pyClean line.data) = none →
        ∀ caps, reSearch patC (pyClean line.data) = some caps →
          extract_value line bname = groupFloat caps) ∧
      (reSearch patA (pyClean line.data) = none →
        reSearch patB (pyClean line.data) = none →
        reSearch patC (pyClean line.data) = none →
        ∀ caps, reSearch patD (pyClean line.data) = some caps →
          extract_value line bname = groupFloat caps) ∧
      (reSearch patA (pyClean line.data) = none →
        reSearch patB (pyClean line.data) = none →
        reSearch patC (pyClean line.data) = none →
        reSearch patD (pyClean line.data) = none →
        extract_value line bname =
          wordScanPure (pySplitWS (pyClean line.data)).reverse)) ∧
    extract_value "H.P.L.C 6.1" "HbA1c" = some (.finite (mkRat 61 10)) ∧
    extract_value "6.1 %" "HbA1c" = some (.finite (mkRat 61 10)) := by
  refine ⟨?_, by decide, by decide⟩
  intro line bname hsub
  refine ⟨?_, ?_, ?_, ?_, ?_⟩
  · intro caps hA
    rw [extract_value, if_pos hsub]
    simp only [patLoop, hbPatterns, hA]
  · intro hA caps hB
    rw [extract_value, if_pos hsub]
    simp only [patLoop, hbPatterns, hA, hB]
  · intro hA hB caps hC
    rw [extract_value, if_pos hsub]
    simp only [patLoop, hbPatterns, hA, hB, hC]
  · intro hA hB hC caps hD
    rw [extract_value, if_pos hsub]
    simp only [patLoop, hbPatterns, hA, hB, hC, hD]
  · intro hA hB hC hD
    rw [extract_value, if_pos hsub]
    simp only [patLoop, hbPatterns, hA, hB, hC, hD]

/-- Witness for C2's amended universal part: "H.P.L.C 6.1" matches none of
patterns a, so the precedence chain selects pattern b. -/
theorem hb_pattern_precedence_witness :
    extract_value "H.P.L.C 6.1" "HbA1c" =
      groupFloat [(1, ['6', '.', '1'])] := by
  exact (hb_pattern_precedence.1 "H.P.L.C 6.1" "HbA1c" (by decide)).2.1
    (by decide) [(1, ['6', '.', '1'])] (by decide)

/-- C3 — Generic policy: for a biomarker name not containing "hba1c", the
result is the first (rightmost) whitespace token of the cleaned line that
`float` accepts, and the result is absent exactly when no token parses —
absence, not an error. -/
theorem generic_rightmost_token (line bname : String)
    (h : isSub "hba1c".data (pyLower bname.data) = false) :
    extract_value line bname =
      ((pySplitWS (pyClean line.data)).reverse.findSome? pyFloatOfChars) ∧
    (extract_value line bname = none ↔
      ∀ w ∈ pySplitWS (pyClean line.data), pyFloatOfChars w = none) := by
  have h1 : extract_value line bname =
      wordScanPure (pySplitWS (pyClean line.data)).reverse := by
    rw [extract_value, if_neg (by rw [h]; simp)]
  constructor
  · rw [h1, wordScanPure_eq_findSome?]
  · rw [h1, wordScanPure_eq_findSome?]
    constructor
    · intro hn w hw
      rcases hsome : pyFloatOfChars w with _ | v
      · rfl
      · exfalso
        have hmem : w ∈ (pySplitWS (pyClean line.data)).reverse :=
          List.mem_reverse.mpr hw
        rcases List.findSome?_eq_none_iff.mp hn w hmem with h2
        rw [hsome] at h2
        cases h2
    · intro hall
      exact findSome?_none_of_all _ _
        (fun w hw => hall w (List.mem_reverse.mp hw))

/-- Witness for C3 on a concrete line: the rightmost parseable token wins
("mg/dL" is skipped, 1.2 is taken over 7). -/
theorem generic_rightmost_token_witness :
    extract_value "7 abc 1.2 mg/dL" "Creatinine" =
      ((pySplitWS (pyClean "7 abc 1.2 mg/dL".data)).reverse.findSome?
        pyFloatOfChars) ∧
    (extract_value "7 abc 1.2 mg/dL" "Creatinine" = none ↔
      ∀ w ∈ pySplitWS (pyClean "7 abc 1.2 mg/dL".data),
        pyFloatOfChars w = none) :=
  generic_rightmost_token "7 abc 1.2 mg/dL" "Creatinine" (by decide)

/-- C4 — Lookahead discipline: (1) the HbA1c lookahead reads only the
lines at offsets 1 and 2 after the alias match — two documents agreeing on
those two positions give the same result no matter how the matching line
or the rest differ; (2) the first offset whose line parses wins; (3) for
every other biomarker the per-line attempt reads nothing beyond the
alias-matching line itself (it is independent of the document and index). -/
theorem lookahead_discipline :
    (∀ (lines lines' : List String) (idx : ℕ),
      lines[idx + 1]? = lines'[idx + 1]? → lines[idx + 2]? = lines'[idx + 2]? →
      lookaheadScan lines idx [1, 2] = lookaheadScan lines' idx [1, 2]) ∧
    (∀ (lines : List String) (idx : ℕ) (v : PyFloat),
      idx + 1 < lines.length →
      extract_value (lines.getD (idx + 1) "") "HbA1c" = some v →
      lookaheadScan lines idx [1, 2] = some v) ∧
    (∀ (lines lines' : List String) (idx idx' : ℕ) (line bname : String)
      (ps : List String), ¬ bname = "HbA1c" →
      patternLoop lines idx line bname ps = patternLoop lines' idx' line bname ps) := by
  refine ⟨?_, lookaheadScan_stop, ?_⟩
  · intro lines lines' idx h1 h2
    apply lookaheadScan_frame
    intro o ho
    rcases List.mem_cons.mp ho with rfl | ho2
    · exact h1
    · rcases List.mem_singleton.mp ho2 with rfl
      exact h2
  · intro lines lines' idx idx' line bname ps hname
    exact patternLoop_no_lookahead lines lines' idx idx' line bname hname ps

/-- Witness for C4: changing the alias-matching line (index 0) does not
change the HbA1c lookahead result; the offset-1 line 6.1 % wins; a
Creatinine pattern loop ignores the document entirely. -/
theorem lookahead_discipline_witness :
    lookaheadScan ["HbA1c 9.9", "6.1 %", "7.0 %"] 0 [1, 2] =
      lookaheadScan ["ZZZ", "6.1 %", "7.0 %"] 0 [1, 2] ∧
    lookaheadScan ["HbA1c 9.9", "6.1 %", "7.0 %"] 0 [1, 2] =
      some (.finite (mkRat 61 10)) ∧
    patternLoop ["a"] 0 "CREATININE 1.2" "Creatinine" ["CREATININE"] =
      patternLoop ["b", "c"] 5 "CREATININE 1.2" "Creatinine" ["CREATININE"] := by
  refine ⟨?_, ?_, ?_⟩
  · exact lookahead_discipline.1 ["HbA1c 9.9", "6.1 %", "7.0 %"]
      ["ZZZ", "6.1 %", "7.0 %"] 0 (by decide) (by decide)
  · exact lookahead_discipline.2.1 ["HbA1c 9.9", "6.1 %", "7.0 %"] 0
      (.finite (mkRat 61 10)) (by decide) (by decide)
  · exact lookahead_discipline.2.2 ["a"] ["b", "c"] 0 5 "CREATININE 1.2"
      "Creatinine" ["CREATININE"] (by decide)

/-- C5 — counterexample to the claim as stated: in the text
"NAME\nNAME : Bob" the first line containing the marker "NAME" is the bare
line "NAME", which does not fit the name/age/gender pattern; the scan does
NOT stop there — the patient record is derived from the second NAME line,
so later NAME lines are not ignored. -/
theorem name_scan_cex :
    isSub "NAME".data ("NAME" : String).data = true ∧
    reSearch patientRX ("NAME" : String).data = none ∧
    splitLines "NAME\nNAME : Bob" = ["NAME", "NAME : Bob"] ∧
    extract_patient_info "2024-01-01" "NAME\nNAME : Bob" =
      { name := "Dr. Bob", age := none, gender := none, date := "2024-01-01" } := by
  refine ⟨by decide, by decide, by decide, by decide⟩

/-- C5 (amended) — the parser selects the first line that both contains
"NAME" and matches the name/age/gender regex, and derives the record from
that line alone; NAME-lines that fail the regex are skipped and the scan
continues. -/
theorem name_line_selection (now text : String) (i : ℕ) (p : PatientInfo)
    (hi : i < (splitLines text).length)
    (hline : lineInfo now ((splitLines text).getD i "") = some p)
    (hfirst : ∀ k, k < i → lineInfo now ((splitLines text).getD k "") = none) :
    extract_patient_info now text = p := by
  rw [extract_patient_info, patientLoop_eq]
  rw [findSome?_first (lineInfo now) "" (splitLines text) i p hi hline hfirst]
  rfl

/-- Witness for C5's amended claim on "NAME\nNAME : Bob": line 0 fails the
regex, line 1 is the first fitting line and is selected. -/
theorem name_line_selection_witness :
    extract_patient_info "d" "NAME\nNAME : Bob" =
      { name := "Dr. Bob", age := none, gender := none, date := "d" } := by
  refine name_line_selection "d" "NAME\nNAME : Bob" 1
    { name := "Dr. Bob", age := none, gender := none, date := "d" }
    (by decide) (by decide) ?_
  intro k hk
  have hk0 : k = 0 := by omega
  subst hk0
  decide

/-- C6 — Missing-marker sentinel: when no line of the text contains
"NAME", the patient parser returns the sentinel record (name "Unknown",
age and gender absent, dated at the processing time), and the report is
still assembled successfully with that sentinel patient. -/
theorem missing_name_sentinel (nowD nowS fname text : String)
    (h : ∀ line ∈ splitLines text, isSub "NAME".data line.data = false) :
    extract_patient_info nowD text = unknownPatient nowD ∧
    ∃ r, process_text nowD nowS fname text = some r ∧
      r.patient = unknownPatient nowD := by
  have hp : extract_patient_info nowD text = unknownPatient nowD := by
    rw [extract_patient_info, patientLoop_eq]
    have hnone : (splitLines text).findSome? (lineInfo nowD) = none := by
      apply findSome?_none_of_all
      intro line hline
      simp [lineInfo, h line hline]
    rw [hnone]
    rfl
  refine ⟨hp, ?_⟩
  have hlk : ∀ b ∈ extractAll (splitLines text),
      (get_reference_ranges.lookup b.name).isSome = true :=
    fun b hb => lookup_range_of_vocab (extractAll_mem_name hb)
  rcases assembleBiomarkers_spec _ hlk with ⟨m, hm, _⟩
  refine ⟨⟨unknownPatient nowD, m, fname, nowS⟩, ?_, rfl⟩
  rw [process_text]
  simp only [hm, hp, Option.map]

/-- Witness for C6 on "hello\nworld": no NAME marker, sentinel patient,
record still assembled. -/
theorem missing_name_sentinel_witness :
    extract_patient_info "d" "hello\nworld" = unknownPatient "d" ∧
    ∃ r, process_text "d" "t" "f" "hello\nworld" = some r ∧
      r.patient = unknownPatient "d" :=
  missing_name_sentinel "d" "t" "f" "hello\nworld" (by decide)

/-- C7 — Assembled mapping exactness and closed vocabulary: for every
document, assembly succeeds, every assembled entry belongs to the fixed
eight-name vocabulary and joins the extracted value with that biomarker's
static reference range, every biomarker with a present extracted value
appears, and biomarkers whose extracted value is absent are omitted
entirely. -/
theorem assembled_mapping_exact (lines : List String) :
    ∃ m, assembleBiomarkers (extractAll lines) = some m ∧
      (∀ nm e, (nm, e) ∈ m → nm ∈ vocab ∧
        ∃ r, get_reference_ranges.lookup nm = some r ∧
          valueOf (extractAll lines) nm = some e.value ∧
          e.unit = r.unit ∧ e.reference_range = r.reference_range ∧
          e.low = r.low ∧ e.high = r.high) ∧
      (∀ nm v, valueOf (extractAll lines) nm = some v →
        ∃ e, (nm, e) ∈ m ∧ e.value = v) ∧
      (∀ nm, valueOf (extractAll lines) nm = none → ∀ e, (nm, e) ∉ m) := by
  have hlk : ∀ b ∈ extractAll lines,
      (get_reference_ranges.lookup b.name).isSome = true :=
    fun b hb => lookup_range_of_vocab (extractAll_mem_name hb)
  rcases assembleBiomarkers_spec _ hlk with ⟨m, hm, hiff⟩
  have hnd := extractAll_names_nodup lines
  refine ⟨m, hm, ?_, ?_, ?_⟩
  · intro nm e hmem
    rcases (hiff nm e).mp hmem with ⟨b, hb, hnm, v, hv, r, hr, he⟩
    subst hnm
    refine ⟨extractAll_mem_name hb, r, hr, ?_, ?_⟩
    · have : e.value = v := by rw [he]
      rw [this]
      exact (valueOf_eq_some_iff _ hnd b.name v).mpr ⟨b, hb, rfl, hv⟩
    · rw [he]
      exact ⟨rfl, rfl, rfl, rfl⟩
  · intro nm v hval
    rcases (valueOf_eq_some_iff _ hnd nm v).mp hval with ⟨b, hb, hnm, hv⟩
    have hlk2 := hlk b hb
    rw [hnm] at hlk2
    rcases Option.isSome_iff_exists.mp hlk2 with ⟨r, hr⟩
    exact ⟨⟨v, r.unit, r.reference_range, r.low, r.high⟩,
      (hiff nm _).mpr ⟨b, hb, hnm, v, hv, r, hr, rfl⟩, rfl⟩
  · intro nm hnone e hmem
    rcases (hiff nm e).mp hmem with ⟨b, hb, hnm, v, hv, _⟩
    have := (valueOf_eq_some_iff _ hnd nm v).mpr ⟨b, hb, hnm, hv⟩
    rw [hnone] at this
    cases this

/-- Witness for C7 at a concrete document: assembly succeeds and the
Creatinine entry carries value 1.2 with the static range row. -/
theorem assembled_mapping_exact_witness :
    ∃ m, assembleBiomarkers (extractAll ["CREATININE 1.2"]) = some m ∧
      ∃ e, ("Creatinine", e) ∈ m ∧ e.value = .finite (mkRat 6 5) := by
  rcases assembled_mapping_exact ["CREATININE 1.2"] with ⟨m, hm, _, hpresent, _⟩
  refine ⟨m, hm, ?_⟩
  exact hpresent "Creatinine" (.finite (mkRat 6 5)) (by decide)

/-- C8 — Value parsing is total and never propagates a fault: the body of
`extract_value` (with Python exceptions modelled explicitly) never
produces an uncaught exception — the outer catch-all is never exercised —
so `extract_value` always returns a value or absent, and the
caught-and-mapped-to-absent semantics agrees with the pure function. -/
theorem extract_value_no_fault (line bname : String) :
    extract_value_caught line bname = extract_value line bname ∧
    ∃ r, extract_value_bodyE line bname = Except.ok r := by
  constructor
  · rw [extract_value_caught, extract_value_body_ok]
  · exact ⟨_, extract_value_body_ok line bname⟩

/-- C9 — Cleaning invariance: `extract_value` reads the line only through
the cleaning that strips every ',', '<' and '>', so any two lines with the
same cleaned form give the same result; in particular "1,234 mg/dL" and
"1234 mg/dL" both give 1234 for Creatinine. -/
theorem cleaning_invariance :
    (∀ (s t bname : String), pyClean s.data = pyClean t.data →
      extract_value s bname = extract_value t bname) ∧
    extract_value "1,234 mg/dL" "Creatinine" = some (.finite (mkRat 1234 1)) ∧
    extract_value "1,234 mg/dL" "Creatinine" =
      extract_value "1234 mg/dL" "Creatinine" := by
  refine ⟨?_, by decide, by decide⟩
  intro s t bname h
  rw [extract_value, extract_value, h]

/-- Witness for C9's universal part: inserting a thousands separator does
not change the cleaned line, hence not the result. -/
theorem cleaning_invariance_witness :
    pyClean ("1,234 mg/dL" : String).data = pyClean ("1234 mg/dL" : String).data ∧
    extract_value "1,234 mg/dL" "Creatinine" =
      extract_value "1234 mg/dL" "Creatinine" :=
  ⟨by decide, cleaning_invariance.1 "1,234 mg/dL" "1234 mg/dL" "Creatinine" (by decide)⟩

/-- C10 — counterexample to the claim as stated: on the line "x -5 y"
with biomarker name "HbA1c" none of the four patterns matches, so
`extract_value` falls through to the generic token scan and returns the
negative value -5 — an hba1c-name extraction whose result was not
captured by any pattern and is not ≥ 0. -/
theorem hb_negative_fallthrough_cex :
    patLoop hbPatterns (pyClean "x -5 y".data) = none ∧
    extract_value "x -5 y" "HbA1c" = some (.finite (mkRat (-5) 1)) ∧
    mkRat (-5) 1 < 0 := by
  refine ⟨by decide, by decide, by decide⟩

/-- C10 (amended) — when a biomarker name contains "hba1c" and one of the
four patterns matches, the captured group has the shape
digits-optional-dot-digits, so the returned value is a finite rational
≥ 0; but when no pattern matches, `extract_value` falls through to the
generic rightmost-token policy, which has no such restriction even for an
hba1c name (on "x -5 y" it returns -5); the generic policy likewise
returns "-5" for other biomarkers. -/
theorem hb_values_nonneg :
    (∀ (line bname : String) (caps : Caps),
      isSub "hba1c".data (pyLower bname.data) = true →
      patLoop hbPatterns (pyClean line.data) = some caps →
      ∃ q : ℚ, 0 ≤ q ∧ extract_value line bname = some (.finite q)) ∧
    (∀ (line bname : String),
      isSub "hba1c".data (pyLower bname.data) = true →
      patLoop hbPatterns (pyClean line.data) = none →
      extract_value line bname =
        wordScanPure (pySplitWS (pyClean line.data)).reverse) ∧
    extract_value "x -5 y" "HbA1c" = some (.finite (mkRat (-5) 1)) ∧
    extract_value "x -5" "Creatinine" = some (.finite (mkRat (-5) 1)) := by
  refine ⟨?_, ?_, by decide, by decide⟩
  · intro line bname caps hsub hpl
    rcases patLoop_shape hpl with ⟨g, hg, hshape⟩
    rcases pyFloat_numShape hshape with ⟨q, hq, hpf⟩
    refine ⟨q, hq, ?_⟩
    rw [extract_value, if_pos hsub]
    simp only [hpl, groupFloat, hg, hpf]
  · intro line bname hsub hpl
    rw [extract_value, if_pos hsub]
    simp only [hpl]

/-- Witness for C10's amended claim: "6.1 %" is pattern-matched and
non-negative; "x -5 y" takes the fall-through branch. -/
theorem hb_values_nonneg_witness :
    (∃ q : ℚ, 0 ≤ q ∧ extract_value "6.1 %" "HbA1c" = some (.finite q)) ∧
    extract_value "x -5 y" "HbA1c" =
      wordScanPure (pySplitWS (pyClean "x -5 y".data)).reverse :=
  ⟨hb_values_nonneg.1 "6.1 %" "HbA1c" [(1, ['6', '.', '1'])] (by decide) (by decide),
   hb_values_nonneg.2.1 "x -5 y" "HbA1c" (by decide) (by decide)⟩
